import Mathlib

/-!
Verification of the memoclaw-sdk client library
================================================

Shallow embedding of the transport engine (`src/python/src/memoclaw/_client.py`,
`_SyncHTTPClient.request` and its helpers) and of the client facade
(`src/python/src/memoclaw/client.py`) together with the fluent builders
(`src/python/src/memoclaw/builders.py`), followed by theorems settling the
frozen claims about the natural-language specification.

Conventions of the embedding:
* Python floats that hold delays and clock readings become `ℚ` (the values
  involved — `0.5 * 2^k`, integral retry-after seconds, Unix times — are all
  exactly representable, so no rounding is lost).
* The network is an oracle `Nat → SendResult` giving the result of the i-th
  actual network send (0-indexed over every send of the logical request,
  payment re-sends included).  A send either returns a `Response` or raises a
  network-level fault (`httpx.ConnectError` / `ReadTimeout` / `WriteTimeout`),
  identified by an opaque `Nat` tag.
* The x402 payment resolver `_try_x402_payment` is an oracle
  `Response → Option Nat`: `none` models "x402 unavailable or header
  construction failed", `some` models a set of payment headers.
* The clock is an oracle `Nat → ℚ` giving `time.time()` at the start of the
  k-th attempt (one credential generation per attempt).
-/

namespace Memoclaw

/-- Status codes that are safe to retry, from `_RETRYABLE_STATUS_CODES`
in `_client.py`: `{429, 500, 502, 503, 504}`. -/
def RETRYABLE_STATUS_CODES : List Nat := [429, 500, 502, 503, 504]

/-- Mirrors `_RETRY_BASE_DELAY = 0.5` seconds. -/
def RETRY_BASE_DELAY : ℚ := 1/2

/-- A credential produced by `_generate_wallet_auth`.  The address is fixed by
the account and the signature is a deterministic function of the timestamp
(the signed message is `"memoclaw-auth:{timestamp}"`), so the timestamp is the
only varying component; we record it alone. -/
structure Credential where
  timestamp : ℤ
  deriving Repr, DecidableEq

/-- Mirrors `_generate_wallet_auth`: reads the clock and embeds
`int(time.time())` in the credential.  `time.time()` is non-negative, so
Python's truncating `int` agrees with the floor. -/
def generate_wallet_auth (t : ℚ) : Credential :=
  ⟨⌊t⌋⟩

/-- An HTTP response as far as the transport inspects it: its status code and
its `retry-after` header (if any). -/
structure Response where
  status : Nat
  retryAfter : Option String
  deriving Repr, DecidableEq

/-- Result of one network send: a response, or a network-level fault
(`httpx.ConnectError`/`ReadTimeout`/`WriteTimeout`), tagged opaquely. -/
inductive SendResult where
  | ok (r : Response)
  | netErr (e : Nat)
  deriving Repr, DecidableEq

/-- The external world one logical request interacts with. -/
structure Env where
  /-- Result of the i-th network send (0-indexed over all sends). -/
  net : Nat → SendResult
  /-- Mirrors `_try_x402_payment`: `none` = x402 unavailable / construction failed. -/
  pay : Response → Option Nat
  /-- Reading of `time.time()` at the start of the k-th attempt. -/
  clock : Nat → ℚ

/-- Trace record of one network send: which retry attempt it belongs to, the
timestamp inside the `x-wallet-auth` credential it carried, and whether its
headers were merged with payment headers (the 402 re-send). -/
structure SendRec where
  attempt : Nat
  timestamp : ℤ
  isPayment : Bool
  deriving Repr, DecidableEq

/-- The error classes of `errors.py` (`_STATUS_MAP`); `generic` is the
catch-all `APIError`. -/
inductive ErrorKind where
  | validation | authentication | paymentRequired | forbidden
  | notFound | rateLimit | internalServer | generic
  deriving Repr, DecidableEq

/-- Mirrors `APIError.from_response`: pick the error class from the status code via
`_STATUS_MAP` (`400/422 → ValidationError`, `401 → AuthenticationError`,
`402 → PaymentRequiredError`, `403 → ForbiddenError`, `404 → NotFoundError`,
`429 → RateLimitError`, `500 → InternalServerError`, else `APIError`). -/
def classifyStatus (s : Nat) : ErrorKind :=
  if s = 400 ∨ s = 422 then .validation
  else if s = 401 then .authentication
  else if s = 402 then .paymentRequired
  else if s = 403 then .forbidden
  else if s = 404 then .notFound
  else if s = 429 then .rateLimit
  else if s = 500 then .internalServer
  else .generic

/-- How a logical request ends. -/
inductive Outcome where
  /-- Success 2xx: parsed payload (204 → empty dict) returned to the caller. -/
  | success (r : Response)
  /-- Case where `_raise_for_status` raised the typed `APIError` classified from `r`. -/
  | apiError (k : ErrorKind) (r : Response)
  /-- A network-level fault propagated to the caller. -/
  | netRaise (e : Nat)
  /-- The dead code after the loop ("Should not reach here"). -/
  | unreachable
  deriving Repr, DecidableEq

/-- Full observable behaviour of one logical request: its outcome, the network
sends in order, and the delays slept between attempts in order. -/
structure RunResult where
  outcome : Outcome
  sends : List SendRec
  delays : List ℚ
  deriving Repr, DecidableEq

/-- Mirrors `httpx.Response.is_success`: 2xx. -/
def isSuccessStatus (s : Nat) : Bool :=
  200 ≤ s && s < 300

/-- Mirrors lines 133–137 of `_client.py`: the delay slept before the retry that
follows attempt `attempt`.  A `retry-after` header is honored only when it is
a non-empty string of decimal digits (`retry_after and retry_after.isdigit()`,
then `float(retry_after)`); anything else falls back to
`_RETRY_BASE_DELAY * (2 ** attempt)`.  `digitsToNat` is the numeric value
`float(retry_after)` takes on a string of decimal digits; the digit test and
the conversion act on the string's character list so they stay executable. -/
def digitsToNat (cs : List Char) : Nat :=
  cs.foldl (fun n c => n * 10 + (c.toNat - 48)) 0

def retryDelay (attempt : Nat) (retryAfter : Option String) : ℚ :=
  match retryAfter with
  | some s =>
      if s.data ≠ [] ∧ s.data.all Char.isDigit then (digitsToNat s.data : ℚ)
      else RETRY_BASE_DELAY * 2 ^ attempt
  | none => RETRY_BASE_DELAY * 2 ^ attempt

/-- The body of `_SyncHTTPClient.request`'s `for attempt in range(max_retries
+ 1)` loop.  `attempt` is the current loop index, `callIdx` the index of the
next network send, and `fuel` the number of loop iterations left
(`maxRetries + 1 - attempt`); `continue` is guarded by
`attempt < max_retries`, so the fuel never runs out from the entry point and
the `fuel = 0` case is the dead code after the loop. -/
def requestAux (env : Env) (maxRetries : Nat) :
    Nat → Nat → Nat → RunResult
  | _attempt, _callIdx, 0 => ⟨Outcome.unreachable, [], []⟩
  | attempt, callIdx, fuel + 1 =>
    -- Generate fresh auth header each attempt (timestamp-based)
    let ts := (generate_wallet_auth (env.clock attempt)).timestamp
    match env.net callIdx with
    | SendResult.netErr e =>
      -- network fault: retry with pure exponential backoff, or re-raise
      if attempt < maxRetries then
        let rest := requestAux env maxRetries (attempt + 1) (callIdx + 1) fuel
        ⟨rest.outcome, ⟨attempt, ts, false⟩ :: rest.sends,
          (RETRY_BASE_DELAY * 2 ^ attempt) :: rest.delays⟩
      else ⟨Outcome.netRaise e, [⟨attempt, ts, false⟩], []⟩
    | SendResult.ok r0 =>
      -- 402 → attempt x402 payment and re-send once with merged headers
      match (if r0.status = 402 then env.pay r0 else none) with
      | some _ =>
        -- the re-send happens outside the try block: a network fault here
        -- propagates immediately
        match env.net (callIdx + 1) with
        | SendResult.netErr e =>
          ⟨Outcome.netRaise e, [⟨attempt, ts, false⟩, ⟨attempt, ts, true⟩], []⟩
        | SendResult.ok r1 =>
          if r1.status ∈ RETRYABLE_STATUS_CODES ∧ attempt < maxRetries then
            let rest :=
              requestAux env maxRetries (attempt + 1) (callIdx + 2) fuel
            ⟨rest.outcome,
              ⟨attempt, ts, false⟩ :: ⟨attempt, ts, true⟩ :: rest.sends,
              retryDelay attempt r1.retryAfter :: rest.delays⟩
          else if isSuccessStatus r1.status then
            ⟨Outcome.success r1, [⟨attempt, ts, false⟩, ⟨attempt, ts, true⟩], []⟩
          else
            ⟨Outcome.apiError (classifyStatus r1.status) r1,
              [⟨attempt, ts, false⟩, ⟨attempt, ts, true⟩], []⟩
      | none =>
        if r0.status ∈ RETRYABLE_STATUS_CODES ∧ attempt < maxRetries then
          let rest :=
            requestAux env maxRetries (attempt + 1) (callIdx + 1) fuel
          ⟨rest.outcome, ⟨attempt, ts, false⟩ :: rest.sends,
            retryDelay attempt r0.retryAfter :: rest.delays⟩
        else if isSuccessStatus r0.status then
          ⟨Outcome.success r0, [⟨attempt, ts, false⟩], []⟩
        else
          ⟨Outcome.apiError (classifyStatus r0.status) r0,
            [⟨attempt, ts, false⟩], []⟩

/-- Mirrors `_SyncHTTPClient.request` for one logical request: run the loop with
attempt counter 0 and the full attempt budget `max_retries + 1`. -/
def request (env : Env) (maxRetries : Nat) : RunResult :=
  requestAux env maxRetries 0 0 (maxRetries + 1)

/-! ## Client facade (`client.py`) -/

/-- One memory passed to `store_batch` (`StoreInput | dict`), opaque to the
chunking/validation logic. -/
abbrev StoreItem := Nat

/-- Mirrors `MAX_BATCH_SIZE = 100` in `client.py`. -/
def MAX_BATCH_SIZE : Nat := 100

/-- Mirrors `MemoClaw.store_batch`, up to the network boundary: the result is the
list of network-call payloads it issues (`POST /v1/store/batch` with the
whole list as one call), or the `ValueError` it raises first.  Mirrors
lines 260–276 of `client.py`: empty list rejected, more than
`MAX_BATCH_SIZE` items rejected, otherwise exactly one call. -/
def store_batch (memories : List StoreItem) :
    Except String (List (List StoreItem)) :=
  if memories = [] then Except.error "memories list must not be empty"
  else if MAX_BATCH_SIZE < memories.length then
    Except.error "Batch size exceeds maximum"
  else Except.ok [memories]

/-- One entry of `update_batch`; only the `id` field matters to the local
validation (a dict without an `"id"` key is modelled by `id = ""`, which the
code treats the same way: `"id" not in item or not item["id"]`). -/
structure UpdateItem where
  id : String
  deriving Repr, DecidableEq

/-- Mirrors `MemoClaw.update_batch` up to the network boundary (lines 433–467 of
`client.py`): empty list rejected, oversized list rejected, an update with a
missing/empty id rejected, otherwise exactly one network call. -/
def update_batch (updates : List UpdateItem) :
    Except String (List (List UpdateItem)) :=
  if updates = [] then Except.error "updates list must not be empty"
  else if MAX_BATCH_SIZE < updates.length then
    Except.error "Batch size exceeds maximum"
  else if updates.any (fun u => u.id == "") then
    Except.error "Each update must include a non-empty id"
  else Except.ok [updates]

/-- Successive slices `l[i : i + n]` for `i in range(0, len(l), n)` — the
chunking idiom used by `delete_batch` (n = 50) and `BatchStore.execute`
(n = 100).  The `n = 0` guard is a model artifact; both call sites use a
fixed positive `n`. -/
def chunksOf {α : Type} (n : Nat) (l : List α) : List (List α) :=
  if h : l.length = 0 ∨ n = 0 then []
  else l.take n :: chunksOf n (l.drop n)
termination_by l.length
decreasing_by
  simp only [List.length_drop]
  push_neg at h
  omega

/-- Mirrors `MemoClaw.delete_batch` (lines 476–492 of `client.py`): empty input
returns `[]` with zero network calls; otherwise one call per 50-item chunk,
with the per-chunk result lists concatenated.  `respond` is the server's
result list for a chunk; the pair's second component counts network calls. -/
def delete_batch (respond : List String → List Nat)
    (memory_ids : List String) : List Nat × Nat :=
  if memory_ids = [] then ([], 0)
  else (((chunksOf 50 memory_ids).map respond).flatten,
    (chunksOf 50 memory_ids).length)

/-- Server reply to one `store_batch` call, as aggregated by
`BatchStore.execute` in `builders.py`. -/
structure StoreBatchResult where
  ids : List Nat
  tokens_used : Nat
  deduplicated_count : Nat
  deriving Repr, DecidableEq

/-- The chunk loop of `BatchStore.execute` (`builders.py` lines 664–671):
each chunk goes through `client.store_batch` (validation, then one network
call answered by `respond`); ids are concatenated, token and deduplication
counts summed.  Returns `(ids, tokens_used, deduplicated_count, calls)`. -/
def execChunks (respond : List StoreItem → StoreBatchResult) :
    List (List StoreItem) → Except String (List Nat × Nat × Nat × Nat)
  | [] => Except.ok ([], 0, 0, 0)
  | c :: cs => do
    let _ ← store_batch c
    let r := respond c
    let (ids, tok, ded, calls) ← execChunks respond cs
    Except.ok (r.ids ++ ids, r.tokens_used + tok,
      r.deduplicated_count + ded, calls + 1)

/-- The dict returned by `BatchStore.execute`. -/
structure BatchExecResult where
  ids : List Nat
  count : Nat
  stored : Bool
  tokens_used : Nat
  deduplicated_count : Nat
  deriving Repr, DecidableEq

/-- Mirrors `BatchStore.execute` (`builders.py` lines 656–681): empty batch short
circuits with zero calls; otherwise the memories are processed in chunks of
`MAX_BATCH_SIZE` and aggregated; `count = len(all_ids)`.  The second
component counts the `store_batch` network calls. -/
def BatchStore_execute (respond : List StoreItem → StoreBatchResult)
    (memories : List StoreItem) : Except String (BatchExecResult × Nat) :=
  if memories = [] then Except.ok (⟨[], 0, false, 0, 0⟩, 0)
  else
    (execChunks respond (chunksOf MAX_BATCH_SIZE memories)).map
      (fun r => (⟨r.1, r.1.length, true, r.2.1, r.2.2.1⟩, r.2.2.2))

/-- Mirrors `_validate_non_empty` (`client.py` lines 77–80): raise `ValueError` when
the value is empty or whitespace-only (`not value or not value.strip()`).
`value.strip()` is empty exactly when every character is whitespace, so the
test is expressed on the character list, which keeps it executable. -/
def validate_non_empty (value : String) : Except String Unit :=
  if value.data = [] ∨ value.data.all Char.isWhitespace then
    Except.error "must be a non-empty string"
  else Except.ok ()

/-- The network call issued by `MemoClaw.store`: path and the body fields the
claims inspect (`_build_store_body` includes `importance` verbatim whenever
it is provided — no range check). -/
structure StoreRequest where
  path : String
  content : String
  importance : Option ℚ
  deriving Repr, DecidableEq

/-- Mirrors `MemoClaw.store` up to the network boundary (lines 229–258 of
`client.py`): the only local validation is `_validate_non_empty(content)`;
the importance value is forwarded untouched. -/
def store (content : String) (importance : Option ℚ) :
    Except String StoreRequest :=
  match validate_non_empty content with
  | Except.error e => Except.error e
  | Except.ok _ => Except.ok ⟨"/v1/store", content, importance⟩

/-- The network call issued by `MemoClaw.recall`. -/
structure RecallRequest where
  path : String
  query : String
  min_similarity : Option ℚ
  deriving Repr, DecidableEq

/-- Mirrors `MemoClaw.recall` up to the network boundary (lines 292–332 of
`client.py`): the only local validation is `_validate_non_empty(query)`;
`min_similarity` is forwarded untouched.  (Named `recallOp` because
`recall` is a reserved command name in Lean.) -/
def recallOp (query : String) (min_similarity : Option ℚ) :
    Except String RecallRequest :=
  match validate_non_empty query with
  | Except.error e => Except.error e
  | Except.ok _ => Except.ok ⟨"/v1/recall", query, min_similarity⟩

/-- Mirrors `MemoryBuilder.importance` (`builders.py` lines 54–58): rejects values
outside `[0, 1]` with `ValueError`, otherwise records the value. -/
def MemoryBuilder_importance (imp : ℚ) : Except String ℚ :=
  if 0 ≤ imp ∧ imp ≤ 1 then Except.ok imp
  else Except.error "importance must be between 0.0 and 1.0"

/-- Mirrors `RecallBuilder.min_similarity` (`builders.py` lines 181–185): rejects
values outside `[0, 1]` with `ValueError`, otherwise records the value. -/
def RecallBuilder_min_similarity (ms : ℚ) : Except String ℚ :=
  if 0 ≤ ms ∧ ms ≤ 1 then Except.ok ms
  else Except.error "min_similarity must be between 0.0 and 1.0"

/-! ## Pagination (`MemoClaw.iter_memories`) -/

/-- One page returned by the list endpoint: the memories of the page and the
server-reported total.  Memories are opaque (`Nat`). -/
structure ListPage where
  memories : List Nat
  total : Nat
  deriving Repr, DecidableEq

/-- The `while True` loop of `MemoClaw.iter_memories` (lines 360–386 of
`client.py`).  `server offset` is the page the list endpoint returns at that
offset.  The trace records each call as `(offset, page)`, in order; the Bool
is `true` when the loop exited through its `break` (rather than by running
out of fuel — the loop itself has no bound, so the model is fuel-indexed). -/
def iter_memories_aux (server : Nat → ListPage) :
    Nat → Nat → List (Nat × ListPage) × Bool
  | 0, _ => ([], false)
  | fuel + 1, offset =>
    let page := server offset
    let offset' := offset + page.memories.length
    if page.total ≤ offset' ∨ page.memories = [] then ([(offset, page)], true)
    else
      let rest := iter_memories_aux server fuel offset'
      ((offset, page) :: rest.1, rest.2)

/-- Mirrors `MemoClaw.iter_memories`: start the pagination loop at offset 0. -/
def iter_memories (server : Nat → ListPage) (fuel : Nat) :
    List (Nat × ListPage) × Bool :=
  iter_memories_aux server fuel 0

/-- The items yielded by a pagination trace, in order. -/
def yieldedMemories (trace : List (Nat × ListPage)) : List Nat :=
  (trace.map (fun e => e.2.memories)).flatten

/-- The `break` condition of `iter_memories` for one recorded call
`(offset, page)`: after yielding, `offset + len(page.memories) ≥ page.total`
or the page was empty. -/
def pageStops (e : Nat × ListPage) : Prop :=
  e.2.total ≤ e.1 + e.2.memories.length ∨ e.2.memories = []

instance (e : Nat × ListPage) : Decidable (pageStops e) := by
  unfold pageStops; infer_instance

/-! ## Graph traversal (`MemoClaw.get_memory_graph`) -/

/-- A relation as `get_memory_graph` consumes it: only the neighbouring
memory's id (`rel.memory.id`) is inspected. -/
structure RelationWithMemory where
  target : String
  deriving Repr, DecidableEq

/-- The keys of the `visited` dict (insertion-ordered, like a Python dict). -/
def visitedKeys (visited : List (String × List RelationWithMemory)) :
    List String :=
  visited.map Prod.fst

/-- The inner `for mid in frontier` loop of `get_memory_graph` (lines
858–866 of `client.py`): skip already-visited ids, otherwise query the
node's relations (`adj`), record them, and append the not-yet-visited
neighbour ids to the next frontier. -/
def processFrontier (adj : String → List RelationWithMemory) :
    List (String × List RelationWithMemory) → List String → List String →
    List (String × List RelationWithMemory) × List String
  | visited, nextF, [] => (visited, nextF)
  | visited, nextF, mid :: rest =>
    if mid ∈ visitedKeys visited then processFrontier adj visited nextF rest
    else
      let rels := adj mid
      let visited' := visited ++ [(mid, rels)]
      let nextF' := nextF ++
        (rels.map (fun r => r.target)).filter
          (fun n => !((visitedKeys visited').contains n))
      processFrontier adj visited' nextF' rest

/-- The `for _ in range(depth)` loop of `get_memory_graph`, with the early
`break` when a level produces no new frontier. -/
def graphLoop (adj : String → List RelationWithMemory) :
    Nat → List (String × List RelationWithMemory) → List String →
    List (String × List RelationWithMemory)
  | 0, visited, _ => visited
  | d + 1, visited, frontier =>
    let step := processFrontier adj visited [] frontier
    if step.2 = [] then step.1 else graphLoop adj d step.1 step.2

/-- Mirrors `MemoClaw.get_memory_graph` (lines 837–871 of `client.py`): breadth-first
traversal from `memory_id` up to `depth` levels, returning the visited dict
(as an insertion-ordered association list). -/
def get_memory_graph (adj : String → List RelationWithMemory)
    (memory_id : String) (depth : Nat) :
    List (String × List RelationWithMemory) :=
  graphLoop adj depth [] [memory_id]

/-! ## Hook dispatch (`MemoClaw._run_request`) -/

/-- The `for hook in self._on_error_hooks` loop inside the `except` block of
`_run_request` (lines 206–209 of `client.py`).  A hook is a callable that
either returns (its return value is discarded — modelled `none`) or raises
an exception of its own (`some e`).  The result is the list of arguments the
invoked hooks actually received, in order, and the exception that finally
propagates: the original one re-raised by the bare `raise`, unless a hook
itself raised first, which aborts the loop. -/
def dispatchOnError {ε : Type} :
    List (ε → Option ε) → ε → List ε × ε
  | [], exc => ([], exc)
  | h :: rest, exc =>
    match h exc with
    | some raised => ([exc], raised)
    | none =>
      let r := dispatchOnError rest exc
      (exc :: r.1, r.2)

/-- Mirrors `MemoClaw._run_request` (lines 190–214 of `client.py`): fold the
before-request hooks over the body (`if result is not None: body = result`),
run the transport, and on failure dispatch the on-error hooks before the
exception propagates; on success fold the after-response hooks over the
data.  The second component is the list of arguments passed to the invoked
on-error hooks. -/
def run_request {β ε δ : Type} (before : List (β → Option β))
    (onError : List (ε → Option ε)) (after : List (δ → Option δ))
    (transport : β → Except ε δ) (body : β) : Except ε δ × List ε :=
  let finalBody := before.foldl (fun b h => (h b).getD b) body
  match transport finalBody with
  | Except.error exc =>
    let r := dispatchOnError onError exc
    (Except.error r.2, r.1)
  | Except.ok data =>
    (Except.ok (after.foldl (fun d h => (h d).getD d) data), [])

/-! ## Transport lemmas -/

theorem retryable_ne_402 {s : Nat} (h : s ∈ RETRYABLE_STATUS_CODES) :
    s ≠ 402 := by
  simp only [RETRYABLE_STATUS_CODES, List.mem_cons, List.not_mem_nil,
    or_false] at h
  rcases h with h | h | h | h | h <;> subst h <;> decide

theorem retryable_not_success {s : Nat} (h : s ∈ RETRYABLE_STATUS_CODES) :
    isSuccessStatus s = false := by
  simp only [RETRYABLE_STATUS_CODES, List.mem_cons, List.not_mem_nil,
    or_false] at h
  rcases h with h | h | h | h | h <;> subst h <;> decide

/-- If every network send returns a retryable status, the loop consumes the
whole attempt budget and classifies the last response. -/
theorem requestAux_all_retryable (env : Env) (N : Nat) (ρ : Nat → Response)
    (hnet : ∀ i, env.net i = SendResult.ok (ρ i))
    (hretry : ∀ i, (ρ i).status ∈ RETRYABLE_STATUS_CODES) :
    ∀ fuel attempt callIdx, attempt ≤ N → attempt + fuel = N + 1 →
      (requestAux env N attempt callIdx fuel).sends.length = fuel ∧
      (requestAux env N attempt callIdx fuel).outcome =
        Outcome.apiError (classifyStatus (ρ (callIdx + fuel - 1)).status)
          (ρ (callIdx + fuel - 1)) := by
  intro fuel
  induction fuel with
  | zero => intro attempt callIdx hle hsum; omega
  | succ f ih =>
    intro attempt callIdx hle hsum
    have h402 : ¬ (ρ callIdx).status = 402 := retryable_ne_402 (hretry callIdx)
    by_cases hlt : attempt < N
    · have hcond : (ρ callIdx).status ∈ RETRYABLE_STATUS_CODES ∧ attempt < N :=
        ⟨hretry callIdx, hlt⟩
      have ihr := ih (attempt + 1) (callIdx + 1) (by omega) (by omega)
      simp only [requestAux, hnet callIdx, if_neg h402, if_pos hcond]
      constructor
      · simpa using ihr.1
      · have : callIdx + 1 + f - 1 = callIdx + (f + 1) - 1 := by omega
        simpa [this] using ihr.2
    · have hf : f = 0 := by omega
      subst hf
      have hcond : ¬ ((ρ callIdx).status ∈ RETRYABLE_STATUS_CODES ∧
          attempt < N) := by
        intro hc; exact absurd hc.2 hlt
      simp [requestAux, hnet callIdx, if_neg h402, if_neg hcond,
        retryable_not_success (hretry callIdx)]

/-- If the first `j` responses are retryable and the `j`-th (0-indexed) is
neither retryable nor 402, the loop stops right there: `j + 1` sends. -/
theorem requestAux_stops_early (env : Env) (N : Nat) (ρ : Nat → Response)
    (hnet : ∀ i, env.net i = SendResult.ok (ρ i)) :
    ∀ j fuel attempt callIdx, attempt + fuel = N + 1 → attempt + j ≤ N →
      (∀ i, i < j → (ρ (callIdx + i)).status ∈ RETRYABLE_STATUS_CODES) →
      (ρ (callIdx + j)).status ∉ RETRYABLE_STATUS_CODES →
      (ρ (callIdx + j)).status ≠ 402 →
      (requestAux env N attempt callIdx fuel).sends.length = j + 1 ∧
      (requestAux env N attempt callIdx fuel).outcome =
        (if isSuccessStatus (ρ (callIdx + j)).status then
          Outcome.success (ρ (callIdx + j))
         else Outcome.apiError (classifyStatus (ρ (callIdx + j)).status)
          (ρ (callIdx + j))) := by
  intro j
  induction j with
  | zero =>
    intro fuel attempt callIdx hsum hle hpre hnr h402
    cases fuel with
    | zero => omega
    | succ f =>
      simp only [Nat.add_zero] at hnr h402
      have hcond : ¬ ((ρ callIdx).status ∈ RETRYABLE_STATUS_CODES ∧ attempt < N) := by
        intro hc; exact hnr hc.1
      simp only [requestAux, hnet callIdx, if_neg h402, if_neg hcond]
      cases hs : isSuccessStatus (ρ callIdx).status <;> simp [hs]
  | succ j ih =>
    intro fuel attempt callIdx hsum hle hpre hnr h402
    cases fuel with
    | zero => omega
    | succ f =>
      have hcur : (ρ callIdx).status ∈ RETRYABLE_STATUS_CODES := by
        simpa using hpre 0 (by omega)
      have hcond : (ρ callIdx).status ∈ RETRYABLE_STATUS_CODES ∧ attempt < N :=
        ⟨hcur, by omega⟩
      have hshift : callIdx + 1 + j = callIdx + (j + 1) := by omega
      have ihr := ih f (attempt + 1) (callIdx + 1) (by omega) (by omega)
        (fun i hi => by
          have := hpre (i + 1) (by omega)
          simpa [Nat.add_assoc, Nat.add_comm 1 i] using this)
        (by simpa [hshift] using hnr) (by simpa [hshift] using h402)
      simp only [requestAux, hnet callIdx,
        if_neg (retryable_ne_402 hcur), if_pos hcond]
      refine ⟨by simpa using ihr.1, by simpa [hshift] using ihr.2⟩

/-! ## Concrete environments used in witnesses and counterexamples -/

/-- Every send returns a bare 503. -/
def envAll503 : Env :=
  ⟨fun _ => SendResult.ok ⟨503, none⟩, fun _ => none, fun _ => 0⟩

/-- First send 429 (retryable), every later send 404 (terminal). -/
def respEarly404 : Nat → Response :=
  fun i => if i = 0 then ⟨429, none⟩ else ⟨404, none⟩

def envEarly404 : Env :=
  ⟨fun i => SendResult.ok (respEarly404 i), fun _ => none, fun _ => 0⟩

/-! ## Claims -/

/-- C1 (confirmed).  For every logical request executed by the transport engine with
`max_retries = N`: if every attempt yields a response whose status is in
{429, 500, 502, 503, 504}, the engine performs exactly `N + 1` network
attempts and then raises the typed error classified from the last response;
an earlier attempt that succeeds (2xx) or returns a non-retryable status
ends the request immediately with fewer attempts (`j + 1` when the `j`-th
0-indexed attempt is the first non-retryable one). -/
theorem transport_attempt_budget (env : Env) (N : Nat) (ρ : Nat → Response)
    (hnet : ∀ i, env.net i = SendResult.ok (ρ i)) :
    ((∀ i, (ρ i).status ∈ RETRYABLE_STATUS_CODES) →
      (request env N).sends.length = N + 1 ∧
      (request env N).outcome =
        Outcome.apiError (classifyStatus (ρ N).status) (ρ N))
  ∧ (∀ j, j ≤ N →
      (∀ i, i < j → (ρ i).status ∈ RETRYABLE_STATUS_CODES) →
      (ρ j).status ∉ RETRYABLE_STATUS_CODES → (ρ j).status ≠ 402 →
      (request env N).sends.length = j + 1 ∧
      (request env N).outcome =
        (if isSuccessStatus (ρ j).status then Outcome.success (ρ j)
         else Outcome.apiError (classifyStatus (ρ j).status) (ρ j))) := by
  constructor
  · intro hretry
    have h := requestAux_all_retryable env N ρ hnet hretry (N + 1) 0 0
      (by omega) (by omega)
    have hidx : 0 + (N + 1) - 1 = N := by omega
    rw [hidx] at h
    simpa [request] using h
  · intro j hj hpre hnr h402
    have h := requestAux_stops_early env N ρ hnet j (N + 1) 0 0
      (by omega) (by omega)
      (by simpa using hpre) (by simpa using hnr) (by simpa using h402)
    simpa [request] using h

/-- C1 witness: a concrete run with `max_retries = 2` makes exactly 3
attempts when every response is 503, and stops after 2 attempts when the
second response is a terminal 404. -/
theorem transport_attempt_budget_witness :
    ((request envAll503 2).sends.length = 3 ∧
      (request envAll503 2).outcome =
        Outcome.apiError (classifyStatus 503) ⟨503, none⟩)
  ∧ ((request envEarly404 2).sends.length = 2 ∧
      (request envEarly404 2).outcome =
        Outcome.apiError (classifyStatus 404) ⟨404, none⟩) :=
  ⟨(transport_attempt_budget envAll503 2 (fun _ => ⟨503, none⟩)
      (fun _ => rfl)).1 (fun _ => by decide),
   (transport_attempt_budget envEarly404 2 respEarly404 (fun _ => rfl)).2
      1 (by decide)
      (fun i hi => by
        have h0 : i = 0 := by omega
        subst h0; decide)
      (by decide) (by decide)⟩

theorem requestAux_sends_attempt_ge (env : Env) (N : Nat) :
    ∀ fuel attempt callIdx s,
      s ∈ (requestAux env N attempt callIdx fuel).sends →
      attempt ≤ s.attempt := by
  intro fuel
  induction fuel with
  | zero =>
    intro attempt callIdx s hs
    simp [requestAux] at hs
  | succ f ih =>
    intro attempt callIdx s hs
    simp only [requestAux] at hs
    rcases hn : env.net callIdx with r0 | e <;> rw [hn] at hs <;>
      simp only [] at hs
    · by_cases h402 : r0.status = 402
      · rw [if_pos h402] at hs
        rcases hp : env.pay r0 with _ | p <;> rw [hp] at hs <;>
          simp only [] at hs
        · split at hs
          · simp only [List.mem_cons] at hs
            rcases hs with rfl | hs
            · exact le_refl _
            · have := ih (attempt + 1) (callIdx + 1) s hs; omega
          · split at hs <;> simp only [List.mem_singleton] at hs <;>
              subst hs <;> exact le_refl _
        · rcases hn2 : env.net (callIdx + 1) with r1 | e2 <;>
            rw [hn2] at hs <;> simp only [] at hs
          · split at hs
            · simp only [List.mem_cons] at hs
              rcases hs with rfl | (rfl | hs)
              · exact le_refl _
              · exact le_refl _
              · have := ih (attempt + 1) (callIdx + 2) s hs; omega
            · split at hs <;>
                (simp only [List.mem_cons, List.mem_singleton,
                  List.not_mem_nil, or_false] at hs;
                 rcases hs with rfl | rfl <;> exact le_refl _)
          · simp only [List.mem_cons, List.mem_singleton, List.not_mem_nil,
              or_false] at hs
            rcases hs with rfl | rfl <;> exact le_refl _
      · rw [if_neg h402] at hs
        simp only [] at hs
        split at hs
        · simp only [List.mem_cons] at hs
          rcases hs with rfl | hs
          · exact le_refl _
          · have := ih (attempt + 1) (callIdx + 1) s hs; omega
        · split at hs <;> simp only [List.mem_singleton] at hs <;>
            subst hs <;> exact le_refl _
    · split at hs
      · simp only [List.mem_cons] at hs
        rcases hs with rfl | hs
        · exact le_refl _
        · have := ih (attempt + 1) (callIdx + 1) s hs; omega
      · simp only [List.mem_singleton] at hs
        subst hs; exact le_refl _

theorem requestAux_payment_count (env : Env) (N k : Nat) :
    ∀ fuel attempt callIdx,
      (requestAux env N attempt callIdx fuel).sends.countP
        (fun s => s.attempt == k && s.isPayment) ≤ 1 := by
  intro fuel
  induction fuel with
  | zero =>
    intro attempt callIdx
    simp [requestAux]
  | succ f ih =>
    intro attempt callIdx
    have hzero : ∀ callIdx2,
        k < attempt + 1 →
        (requestAux env N (attempt + 1) callIdx2 f).sends.countP
          (fun s => s.attempt == k && s.isPayment) = 0 := by
      intro callIdx2 hk
      rw [List.countP_eq_zero]
      intro s hsmem
      have := requestAux_sends_attempt_ge env N f (attempt + 1) callIdx2 s hsmem
      simp only [Bool.and_eq_true, beq_iff_eq]
      intro hcontra
      omega
    simp only [requestAux]
    rcases hn : env.net callIdx with r0 | e <;> simp only []
    · by_cases h402 : r0.status = 402
      · rw [if_pos h402]
        rcases hp : env.pay r0 with _ | p <;> simp only []
        · split
          · simp only [List.countP_cons]
            have h1 := ih (attempt + 1) (callIdx + 1)
            simp only [Bool.and_false, Bool.false_eq_true, if_false, reduceIte]
            omega
          · split <;> simp [List.countP_cons]
        · rcases hn2 : env.net (callIdx + 1) with r1 | e2 <;> simp only []
          · split
            · simp only [List.countP_cons]
              by_cases hk : attempt = k
              · subst hk
                rw [hzero (callIdx + 2) (by omega)]
                simp
              · have h1 := ih (attempt + 1) (callIdx + 2)
                have hbeq : (attempt == k) = false := by
                  simp [hk]
                simp only [hbeq, Bool.false_and, Bool.and_false, Bool.false_eq_true,
                  if_false, reduceIte]
                omega
            · split <;> simp [List.countP_cons] <;> split <;> simp
          · simp [List.countP_cons]
            split <;> simp
      · rw [if_neg h402]
        simp only []
        split
        · simp only [List.countP_cons, Bool.and_false, Bool.false_eq_true,
            if_false, reduceIte]
          have h1 := ih (attempt + 1) (callIdx + 1)
          omega
        · split <;> simp [List.countP_cons]
    · split
      · simp only [List.countP_cons, Bool.and_false, Bool.false_eq_true,
          if_false, reduceIte]
        have h1 := ih (attempt + 1) (callIdx + 1)
        omega
      · simp [List.countP_cons]

theorem requestAux_nonpayment_count (env : Env) (N : Nat) :
    ∀ fuel attempt callIdx,
      (requestAux env N attempt callIdx fuel).sends.countP
        (fun s => !s.isPayment) ≤ fuel := by
  intro fuel
  induction fuel with
  | zero =>
    intro attempt callIdx
    simp [requestAux]
  | succ f ih =>
    intro attempt callIdx
    simp only [requestAux]
    rcases hn : env.net callIdx with r0 | e <;> simp only []
    · by_cases h402 : r0.status = 402
      · rw [if_pos h402]
        rcases hp : env.pay r0 with _ | p <;> simp only []
        · split
          · simp only [List.countP_cons, Bool.not_false, Bool.not_true,
              Bool.false_eq_true, reduceIte]
            have h1 := ih (attempt + 1) (callIdx + 1)
            omega
          · split <;> simp [List.countP_cons]
        · rcases hn2 : env.net (callIdx + 1) with r1 | e2 <;> simp only []
          · split
            · simp only [List.countP_cons, Bool.not_false, Bool.not_true,
                Bool.false_eq_true, reduceIte]
              have h1 := ih (attempt + 1) (callIdx + 2)
              omega
            · split <;> simp [List.countP_cons]
          · simp [List.countP_cons]
      · rw [if_neg h402]
        simp only []
        split
        · simp only [List.countP_cons, Bool.not_false, Bool.not_true,
            Bool.false_eq_true, reduceIte]
          have h1 := ih (attempt + 1) (callIdx + 1)
          omega
        · split <;> simp [List.countP_cons]
    · split
      · simp only [List.countP_cons, Bool.not_false, Bool.not_true,
          Bool.false_eq_true, reduceIte]
        have h1 := ih (attempt + 1) (callIdx + 1)
        omega
      · simp [List.countP_cons]

/-- Scenario 402 → payment re-send → 503 (retryable) → retry → 402 again →
a second payment re-send, with `max_retries = 1`. -/
def env402 : Env :=
  ⟨fun i =>
    if i = 0 then SendResult.ok ⟨402, none⟩
    else if i = 1 then SendResult.ok ⟨503, none⟩
    else if i = 2 then SendResult.ok ⟨402, none⟩
    else SendResult.ok ⟨200, none⟩,
   fun _ => some 1, fun _ => 0⟩

/-- C2 (counterexample).  The claim says at most one payment-augmented
re-send per logical request, regardless of retry budget.  In this run with
`max_retries = 1` the transport performs TWO payment-augmented re-sends in
a single logical request: the first payment re-send returns a retryable 503,
the retry attempt receives its own 402 and pays again. -/
theorem payment_two_resends :
    (request env402 1).sends.countP (fun s => s.isPayment) = 2 ∧
    (request env402 1).outcome = Outcome.success ⟨200, none⟩ := by
  decide

/-- C2 (amended).  Within one logical request the transport performs at
most one payment-augmented re-send per ATTEMPT (not per logical request):
for every retry-attempt index `k` at most one send is payment-augmented.
The re-send never consumes a retry-counter slot — the number of ordinary
(non-payment) sends is bounded by `max_retries + 1` no matter how many
payment re-sends occur.  A second payment re-send in the same logical
request is possible exactly when an earlier payment re-send yields a
retryable status and a later attempt receives a fresh 402. -/
theorem payment_resend_bounds (env : Env) (N k : Nat) :
    (request env N).sends.countP (fun s => s.attempt == k && s.isPayment) ≤ 1
  ∧ (request env N).sends.countP (fun s => !s.isPayment) ≤ N + 1 :=
  ⟨requestAux_payment_count env N k (N + 1) 0 0,
   requestAux_nonpayment_count env N (N + 1) 0 0⟩

/-- Every recorded send carries the credential generated from its own
attempt's clock reading. -/
theorem requestAux_timestamp_fresh (env : Env) (N : Nat) :
    ∀ fuel attempt callIdx s,
      s ∈ (requestAux env N attempt callIdx fuel).sends →
      s.timestamp =
        (generate_wallet_auth (env.clock s.attempt)).timestamp := by
  intro fuel
  induction fuel with
  | zero =>
    intro attempt callIdx s hs
    simp [requestAux] at hs
  | succ f ih =>
    intro attempt callIdx s hs
    simp only [requestAux] at hs
    rcases hn : env.net callIdx with r0 | e <;> rw [hn] at hs <;>
      simp only [] at hs
    · by_cases h402 : r0.status = 402
      · rw [if_pos h402] at hs
        rcases hp : env.pay r0 with _ | p <;> rw [hp] at hs <;>
          simp only [] at hs
        · split at hs
          · simp only [List.mem_cons] at hs
            rcases hs with rfl | hs
            · rfl
            · exact ih (attempt + 1) (callIdx + 1) s hs
          · split at hs <;> simp only [List.mem_singleton] at hs <;>
              subst hs <;> rfl
        · rcases hn2 : env.net (callIdx + 1) with r1 | e2 <;>
            rw [hn2] at hs <;> simp only [] at hs
          · split at hs
            · simp only [List.mem_cons] at hs
              rcases hs with rfl | (rfl | hs)
              · rfl
              · rfl
              · exact ih (attempt + 1) (callIdx + 2) s hs
            · split at hs <;>
                (simp only [List.mem_cons, List.mem_singleton,
                  List.not_mem_nil, or_false] at hs;
                 rcases hs with rfl | rfl <;> rfl)
          · simp only [List.mem_cons, List.mem_singleton, List.not_mem_nil,
              or_false] at hs
            rcases hs with rfl | rfl <;> rfl
      · rw [if_neg h402] at hs
        simp only [] at hs
        split at hs
        · simp only [List.mem_cons] at hs
          rcases hs with rfl | hs
          · rfl
          · exact ih (attempt + 1) (callIdx + 1) s hs
        · split at hs <;> simp only [List.mem_singleton] at hs <;>
            subst hs <;> rfl
    · split at hs
      · simp only [List.mem_cons] at hs
        rcases hs with rfl | hs
        · rfl
        · exact ih (attempt + 1) (callIdx + 1) s hs
      · simp only [List.mem_singleton] at hs
        subst hs; rfl

/-- C4 (amended).  The authentication credential is freshly generated for
each attempt — every send's embedded timestamp is `int(time.time())` of its
own attempt's clock reading, never a cached value from an earlier attempt.
Credentials of two attempts therefore differ in timestamp exactly when the
attempts' clock readings fall in different whole seconds; same-second
attempts produce equal timestamps. -/
theorem credential_regenerated_each_attempt (env : Env) (N : Nat)
    (s : SendRec) (hs : s ∈ (request env N).sends) :
    s.timestamp = (generate_wallet_auth (env.clock s.attempt)).timestamp :=
  requestAux_timestamp_fresh env N (N + 1) 0 0 s hs

/-- C4 witness: the first send of a concrete run carries the timestamp of
attempt 0's clock reading. -/
theorem credential_regenerated_witness :
    (⟨0, 0, false⟩ : SendRec) ∈ (request envAll503 2).sends ∧
    (⟨0, 0, false⟩ : SendRec).timestamp =
      (generate_wallet_auth (envAll503.clock 0)).timestamp :=
  ⟨by decide,
   credential_regenerated_each_attempt envAll503 2 ⟨0, 0, false⟩ (by decide)⟩

def envHalfSecond : Env :=
  ⟨fun i => if i = 0 then SendResult.ok ⟨503, none⟩
    else SendResult.ok ⟨200, none⟩,
   fun _ => none, fun k => 100 + k * (1/2)⟩

/-- C4 (counterexample).  The claim says credentials of distinct attempts
always differ in the embedded Unix timestamp.  In this realistic run (the
clock advances by exactly the slept 0.5 s backoff between the two attempts)
both attempts embed timestamp 100. -/
theorem credential_equal_timestamps :
    (request envHalfSecond 1).delays = [1/2]
  ∧ envHalfSecond.clock 1 = envHalfSecond.clock 0 + 1/2
  ∧ (request envHalfSecond 1).sends.map (fun s => s.attempt) = [0, 1]
  ∧ (request envHalfSecond 1).sends.map (fun s => s.timestamp) =
      [100, 100] := by
  refine ⟨?_, ?_, ?_, ?_⟩ <;>
    simp [request, requestAux, envHalfSecond, RETRYABLE_STATUS_CODES,
      retryDelay, RETRY_BASE_DELAY, isSuccessStatus, generate_wallet_auth] <;>
    norm_num

def envRetryAfter7 : Env :=
  ⟨fun i => if i = 0 then SendResult.ok ⟨503, some "7"⟩
    else SendResult.ok ⟨200, none⟩,
   fun _ => none, fun _ => 0⟩

/-- C3 (confirmed).  The delay before the k-th retry (0-indexed) is
`base_delay * 2^k` exactly when no well-formed server wait hint is present
(with `base_delay = 0.5`: delays 0.5, 1.0, 2.0 as shown on a concrete run);
a `retry-after` header that is a non-empty string of decimal digits is used
as the delay in seconds instead; any other header value falls back to the
exponential formula. -/
theorem backoff_delay_semantics (k : Nat) (s : String) :
    retryDelay k none = RETRY_BASE_DELAY * 2 ^ k
  ∧ (retryDelay 0 none = 1/2 ∧ retryDelay 1 none = 1 ∧ retryDelay 2 none = 2)
  ∧ (s.data ≠ [] → s.data.all Char.isDigit = true →
      retryDelay k (some s) = (digitsToNat s.data : ℚ))
  ∧ (¬(s.data ≠ [] ∧ s.data.all Char.isDigit = true) →
      retryDelay k (some s) = RETRY_BASE_DELAY * 2 ^ k)
  ∧ (request envAll503 3).delays = [1/2, 1, 2]
  ∧ (request envRetryAfter7 1).delays = [7] := by
  refine ⟨rfl, ⟨?_, ?_, ?_⟩, ?_, ?_, ?_, ?_⟩
  · norm_num [retryDelay, RETRY_BASE_DELAY]
  · norm_num [retryDelay, RETRY_BASE_DELAY]
  · norm_num [retryDelay, RETRY_BASE_DELAY]
  · intro h1 h2
    simp only [retryDelay]
    rw [if_pos ⟨h1, h2⟩]
  · intro h
    simp only [retryDelay]
    rw [if_neg h]
  · simp [request, requestAux, envAll503, RETRYABLE_STATUS_CODES, retryDelay,
      RETRY_BASE_DELAY, isSuccessStatus, generate_wallet_auth]
    norm_num
  · have h7 : digitsToNat "7".data = 7 := by decide
    simp [request, requestAux, envRetryAfter7, RETRYABLE_STATUS_CODES,
      retryDelay, RETRY_BASE_DELAY, isSuccessStatus, generate_wallet_auth, h7]

/-- C3 witness: a digit header "42" is honored, a malformed header "4x2"
falls back to exponential backoff. -/
theorem backoff_delay_semantics_witness :
    retryDelay 5 (some "42") = (digitsToNat "42".data : ℚ)
  ∧ retryDelay 5 (some "4x2") = RETRY_BASE_DELAY * 2 ^ 5 :=
  ⟨(backoff_delay_semantics 5 "42").2.2.1 (by decide) (by decide),
   (backoff_delay_semantics 5 "4x2").2.2.2.1 (by decide)⟩

theorem chunksOf_nil {α : Type} (n : Nat) : chunksOf n ([] : List α) = [] := by
  rw [chunksOf]; simp

theorem chunksOf_eq_cons {α : Type} (n : Nat) (l : List α) (hn : n ≠ 0)
    (hl : l.length ≠ 0) :
    chunksOf n l = l.take n :: chunksOf n (l.drop n) := by
  rw [chunksOf]
  simp [hn, hl]

theorem chunksOf_of_150 {α : Type} (l : List α) (hl : l.length = 150) :
    chunksOf MAX_BATCH_SIZE l = [l.take 100, l.drop 100] := by
  show chunksOf 100 l = [l.take 100, l.drop 100]
  have htake : (l.drop 100).take 100 = l.drop 100 :=
    List.take_of_length_le (by rw [List.length_drop]; omega)
  have hdrop : (l.drop 100).drop 100 = ([] : List α) :=
    List.drop_eq_nil_of_le (by rw [List.length_drop]; omega)
  rw [chunksOf_eq_cons 100 l (by omega) (by omega),
    chunksOf_eq_cons 100 (l.drop 100) (by omega)
      (by rw [List.length_drop]; omega),
    htake, hdrop, chunksOf_nil]

/-- C5 (counterexample).  The claim says a batch store of 150 items issues
2 network calls (chunks of 100 and 50) rather than rejecting the oversized
list.  In fact `store_batch` raises `ValueError` on a 150-item list before
any network call. -/
theorem store_batch_rejects_150 :
    store_batch (List.replicate 150 (0 : StoreItem)) =
      Except.error "Batch size exceeds maximum" := by
  simp [store_batch, MAX_BATCH_SIZE]

/-- C5 (amended).  `MemoClaw.store_batch` itself accepts at most
`MAX_BATCH_SIZE = 100` memories (one network call) and rejects longer lists
with `ValueError` before any network call; the transparent chunking the
claim describes lives in the `BatchStore.execute` builder, which splits 150
items into exactly 2 `store_batch` calls of sizes 100 and 50 and returns a
combined count of 150. -/
theorem store_batch_chunking (respond : List StoreItem → StoreBatchResult)
    (hresp : ∀ c, (respond c).ids.length = c.length) (l : List StoreItem) :
    (l ≠ [] → l.length ≤ MAX_BATCH_SIZE → store_batch l = Except.ok [l])
  ∧ (MAX_BATCH_SIZE < l.length →
      store_batch l = Except.error "Batch size exceeds maximum")
  ∧ (l.length = 150 →
      (chunksOf MAX_BATCH_SIZE l).map List.length = [100, 50]
    ∧ ∃ r calls, BatchStore_execute respond l = Except.ok (r, calls) ∧
        calls = 2 ∧ r.count = 150 ∧ r.stored = true) := by
  refine ⟨?_, ?_, ?_⟩
  · intro h1 h2
    simp [store_batch, h1, Nat.not_lt.mpr h2]
  · intro h
    have h1 : l ≠ [] := by
      intro hnil; subst hnil; simp [MAX_BATCH_SIZE] at h
    simp [store_batch, h1, h]
  · intro hl
    have hchunks := chunksOf_of_150 l hl
    have hlen1 : (l.take 100).length = 100 := by
      simp [List.length_take, hl]
    have hlen2 : (l.drop 100).length = 50 := by
      simp [List.length_drop, hl]
    have hne : l ≠ [] := by
      intro hnil; subst hnil; simp at hl
    constructor
    · rw [hchunks]
      simp [hlen1, hlen2]
    · have hsb1 : store_batch (l.take 100) = Except.ok [l.take 100] := by
        simp [store_batch, MAX_BATCH_SIZE, hlen1,
          List.ne_nil_of_length_pos (by omega : 0 < (l.take 100).length)]
      have hsb2 : store_batch (l.drop 100) = Except.ok [l.drop 100] := by
        simp [store_batch, MAX_BATCH_SIZE, hlen2,
          List.ne_nil_of_length_pos (by omega : 0 < (l.drop 100).length)]
      have hexec : BatchStore_execute respond l =
          Except.ok
            (⟨(respond (l.take 100)).ids ++ ((respond (l.drop 100)).ids ++ []),
              ((respond (l.take 100)).ids ++
                ((respond (l.drop 100)).ids ++ [])).length,
              true,
              (respond (l.take 100)).tokens_used +
                ((respond (l.drop 100)).tokens_used + 0),
              (respond (l.take 100)).deduplicated_count +
                ((respond (l.drop 100)).deduplicated_count + 0)⟩,
             0 + 1 + 1) := by
        rw [BatchStore_execute, if_neg hne, hchunks]
        simp only [execChunks, hsb1, hsb2, Except.map, Except.bind]
        rfl
      refine ⟨_, _, hexec, rfl, ?_, rfl⟩
      simp [hresp, hlen1, hlen2]

/-- A server that returns one id per stored memory. -/
def respondEcho : List StoreItem → StoreBatchResult :=
  fun c => ⟨List.replicate c.length 0, 0, 0⟩

/-- C5 witness: the chunking facts evaluated on a concrete 150-item list
and an echoing server. -/
theorem store_batch_chunking_witness :
    (chunksOf MAX_BATCH_SIZE (List.replicate 150 (0 : StoreItem))).map
      List.length = [100, 50]
  ∧ ∃ r calls,
      BatchStore_execute respondEcho (List.replicate 150 (0 : StoreItem)) =
        Except.ok (r, calls) ∧ calls = 2 ∧ r.count = 150 ∧ r.stored = true :=
  (store_batch_chunking respondEcho (fun c => by simp [respondEcho])
    (List.replicate 150 0)).2.2 (by simp)

/-- C6 (counterexample).  The claim says `store` with importance outside
[0,1] and `recall` with min_similarity outside [0,1] raise a local
validation error before any network attempt.  In fact both pass the value
through to the network: importance 1.5 and min_similarity -1 produce
successful request payloads, no local error. -/
theorem store_range_unchecked :
    store "remember me" (some (3/2)) =
      Except.ok ⟨"/v1/store", "remember me", some (3/2)⟩
  ∧ recallOp "q" (some (-1)) =
      Except.ok ⟨"/v1/recall", "q", some (-1)⟩ := by
  constructor <;> rfl

/-- C6 (amended).  The [0,1] range checks exist only in the fluent
builders: `MemoryBuilder.importance` and `RecallBuilder.min_similarity`
raise `ValueError` for out-of-range values (and accept in-range ones),
while `MemoClaw.store` and `MemoClaw.recall` perform only the non-empty
check and forward any importance/min_similarity value to the network. -/
theorem range_checks_only_in_builders (q : ℚ) (content : String) :
    (¬(0 ≤ q ∧ q ≤ 1) →
      MemoryBuilder_importance q =
        Except.error "importance must be between 0.0 and 1.0"
    ∧ RecallBuilder_min_similarity q =
        Except.error "min_similarity must be between 0.0 and 1.0")
  ∧ ((0 ≤ q ∧ q ≤ 1) → MemoryBuilder_importance q = Except.ok q)
  ∧ (content.data.all Char.isWhitespace = false →
      store content (some q) = Except.ok ⟨"/v1/store", content, some q⟩
    ∧ recallOp content (some q) =
        Except.ok ⟨"/v1/recall", content, some q⟩) := by
  refine ⟨?_, ?_, ?_⟩
  · intro h
    constructor
    · simp only [MemoryBuilder_importance, if_neg h]
    · simp only [RecallBuilder_min_similarity, if_neg h]
  · intro h
    simp only [MemoryBuilder_importance, if_pos h]
  · intro h
    have hdata : content.data ≠ [] := by
      intro hnil
      rw [hnil] at h
      simp at h
    have hval : ¬(content.data = [] ∨
        content.data.all Char.isWhitespace = true) := by
      simp [hdata, h]
    constructor
    · simp only [store, validate_non_empty, if_neg hval]
    · simp only [recallOp, validate_non_empty, if_neg hval]

/-- C6 witness: importance 1.5 is rejected by the builder but sails
through `store`/`recall`. -/
theorem range_checks_only_in_builders_witness :
    (MemoryBuilder_importance (3/2) =
      Except.error "importance must be between 0.0 and 1.0"
    ∧ RecallBuilder_min_similarity (3/2) =
      Except.error "min_similarity must be between 0.0 and 1.0")
  ∧ (store "hi" (some (3/2)) = Except.ok ⟨"/v1/store", "hi", some (3/2)⟩
    ∧ recallOp "hi" (some (3/2)) =
        Except.ok ⟨"/v1/recall", "hi", some (3/2)⟩) :=
  ⟨(range_checks_only_in_builders (3/2) "hi").1 (by norm_num),
   (range_checks_only_in_builders (3/2) "hi").2.2 (by decide)⟩

/-- C10 (confirmed).  On an empty input list, `delete_batch` returns an
empty result list with zero network calls, while `store_batch` and
`update_batch` raise `ValueError` before any network call; none of the
three contacts the network on empty input. -/
theorem empty_batch_behaviour (respond : List String → List Nat) :
    delete_batch respond [] = ([], 0)
  ∧ store_batch [] = Except.error "memories list must not be empty"
  ∧ update_batch [] = Except.error "updates list must not be empty" :=
  ⟨rfl, rfl, rfl⟩

theorem iter_memories_aux_offsets (server : Nat → ListPage) :
    ∀ fuel off0 i e,
      ((iter_memories_aux server fuel off0).1)[i]? = some e →
      e.1 = off0 + ((((iter_memories_aux server fuel off0).1).take i).map
        (fun x => x.2.memories.length)).sum := by
  intro fuel
  induction fuel with
  | zero =>
    intro off0 i e he
    simp [iter_memories_aux] at he
  | succ f ih =>
    intro off0 i e he
    by_cases hstop : (server off0).total ≤
        off0 + (server off0).memories.length ∨ (server off0).memories = []
    · have htr : (iter_memories_aux server (f + 1) off0).1 =
          [(off0, server off0)] := by
        simp only [iter_memories_aux, if_pos hstop]
      rw [htr] at he ⊢
      cases i with
      | zero =>
        simp only [List.getElem?_cons_zero, Option.some_inj] at he
        subst he
        simp
      | succ j => simp at he
    · have htr : (iter_memories_aux server (f + 1) off0).1 =
          (off0, server off0) ::
            (iter_memories_aux server f
              (off0 + (server off0).memories.length)).1 := by
        simp only [iter_memories_aux, if_neg hstop]
      rw [htr] at he ⊢
      cases i with
      | zero =>
        simp only [List.getElem?_cons_zero, Option.some_inj] at he
        subst he
        simp
      | succ j =>
        simp only [List.getElem?_cons_succ] at he
        have := ih (off0 + (server off0).memories.length) j e he
        simp only [List.take_succ_cons, List.map_cons, List.sum_cons]
        omega

theorem iter_memories_aux_no_early_stop (server : Nat → ListPage) :
    ∀ fuel off0 e,
      e ∈ ((iter_memories_aux server fuel off0).1).dropLast →
      ¬ pageStops e := by
  intro fuel
  induction fuel with
  | zero =>
    intro off0 e he
    simp [iter_memories_aux] at he
  | succ f ih =>
    intro off0 e he
    by_cases hstop : (server off0).total ≤
        off0 + (server off0).memories.length ∨ (server off0).memories = []
    · simp only [iter_memories_aux, if_pos hstop] at he
      simp at he
    · simp only [iter_memories_aux, if_neg hstop] at he
      rcases hr : (iter_memories_aux server f
          (off0 + (server off0).memories.length)).1 with _ | ⟨y, ys⟩
      · rw [hr] at he
        simp at he
      · rw [hr] at he
        rw [List.dropLast_cons₂] at he
        rcases List.mem_cons.mp he with rfl | he2
        · exact fun hc => hstop (by exact hc)
        · have := ih (off0 + (server off0).memories.length) e
          rw [hr] at this
          exact this he2

theorem iter_memories_aux_last_stops (server : Nat → ListPage) :
    ∀ fuel off0,
      (iter_memories_aux server fuel off0).2 = true →
      ∃ e, ((iter_memories_aux server fuel off0).1).getLast? = some e ∧
        pageStops e := by
  intro fuel
  induction fuel with
  | zero =>
    intro off0 hfin
    simp [iter_memories_aux] at hfin
  | succ f ih =>
    intro off0 hfin
    by_cases hstop : (server off0).total ≤
        off0 + (server off0).memories.length ∨ (server off0).memories = []
    · refine ⟨(off0, server off0), ?_, hstop⟩
      simp only [iter_memories_aux, if_pos hstop]
      rfl
    · simp only [iter_memories_aux, if_neg hstop] at hfin ⊢
      obtain ⟨e, hlast, hse⟩ :=
        ih (off0 + (server off0).memories.length) hfin
      refine ⟨e, ?_, hse⟩
      rcases hr : (iter_memories_aux server f
          (off0 + (server off0).memories.length)).1 with _ | ⟨y, ys⟩
      · rw [hr] at hlast
        simp at hlast
      · rw [hr] at hlast
        rw [List.getLast?_cons_cons]
        exact hlast

def server5 : Nat → ListPage :=
  fun off =>
    if off = 0 then ⟨[1, 2], 5⟩
    else if off = 2 then ⟨[3, 4], 5⟩
    else if off = 4 then ⟨[5], 5⟩
    else ⟨[], 5⟩

/-- C7 (confirmed).  The pagination iterator requests each page at an
offset equal to the cumulative number of items yielded before that call
(starting from the initial offset); every call before the last does not
satisfy the stop condition, and when the loop breaks the last recorded call
does satisfy it (page empty, or cumulative yielded count ≥ the page's
reported total).  On pages of sizes [2,2,1] with total = 5 it yields
exactly the 5 items in order in exactly 3 underlying list calls at offsets
0, 2, 4. -/
theorem pagination_semantics (server : Nat → ListPage) (fuel off0 : Nat) :
    (∀ i e, ((iter_memories_aux server fuel off0).1)[i]? = some e →
      e.1 = off0 + ((((iter_memories_aux server fuel off0).1).take i).map
        (fun x => x.2.memories.length)).sum)
  ∧ (∀ e ∈ ((iter_memories_aux server fuel off0).1).dropLast, ¬ pageStops e)
  ∧ ((iter_memories_aux server fuel off0).2 = true →
      ∃ e, ((iter_memories_aux server fuel off0).1).getLast? = some e ∧
        pageStops e)
  ∧ ((iter_memories server5 10).1.map Prod.fst = [0, 2, 4]
    ∧ yieldedMemories (iter_memories server5 10).1 = [1, 2, 3, 4, 5]
    ∧ (iter_memories server5 10).1.length = 3
    ∧ (iter_memories server5 10).2 = true) :=
  ⟨fun i e he => iter_memories_aux_offsets server fuel off0 i e he,
   fun e he => iter_memories_aux_no_early_stop server fuel off0 e he,
   fun hfin => iter_memories_aux_last_stops server fuel off0 hfin,
   by decide, by decide, by decide, by decide⟩

/-- C7 witness: the third call of the concrete run starts at offset 4 =
items yielded so far, and the final call satisfies the stop condition. -/
theorem pagination_semantics_witness :
    (4, server5 4).1 =
      0 + (((iter_memories_aux server5 10 0).1.take 2).map
        (fun x => x.2.memories.length)).sum
  ∧ (∃ e, ((iter_memories_aux server5 10 0).1).getLast? = some e ∧
      pageStops e) :=
  ⟨(pagination_semantics server5 10 0).1 2 (4, server5 4) (by decide),
   (pagination_semantics server5 10 0).2.2.1 (by decide)⟩

theorem processFrontier_nodup (adj : String → List RelationWithMemory) :
    ∀ frontier visited nextF,
      (visitedKeys visited).Nodup →
      (visitedKeys (processFrontier adj visited nextF frontier).1).Nodup := by
  intro frontier
  induction frontier with
  | nil =>
    intro v nf h
    exact h
  | cons mid rest ih =>
    intro v nf h
    by_cases hmem : mid ∈ visitedKeys v
    · rw [processFrontier, if_pos hmem]
      exact ih v nf h
    · rw [processFrontier, if_neg hmem]
      apply ih
      simp only [visitedKeys, List.map_append, List.map_cons, List.map_nil]
      rw [List.nodup_append]
      refine ⟨h, List.nodup_singleton mid, ?_⟩
      intro a ha hb
      simp only [List.mem_singleton] at hb
      subst hb
      exact hmem ha

theorem graphLoop_nodup (adj : String → List RelationWithMemory) :
    ∀ depth visited frontier,
      (visitedKeys visited).Nodup →
      (visitedKeys (graphLoop adj depth visited frontier)).Nodup := by
  intro depth
  induction depth with
  | zero =>
    intro v f h
    exact h
  | succ d ih =>
    intro v f h
    rw [graphLoop]
    split
    · exact processFrontier_nodup adj f v [] h
    · exact ih _ _ (processFrontier_nodup adj f v [] h)

theorem get_memory_graph_depth_one
    (adj : String → List RelationWithMemory) (start : String) :
    get_memory_graph adj start 1 = [(start, adj start)] := by
  rw [get_memory_graph, graphLoop]
  have hstep : processFrontier adj [] [] [start] =
      ([(start, adj start)],
        ((adj start).map (fun r => r.target)).filter
          (fun n => !((visitedKeys [(start, adj start)]).contains n))) := by
    rw [processFrontier]
    rw [if_neg (by simp [visitedKeys])]
    rfl
  rw [hstep]
  split <;> rfl

/-- The cyclic relation graph A → B → C → A. -/
def adjABC : String → List RelationWithMemory :=
  fun idStr =>
    if idStr = "A" then [⟨"B"⟩]
    else if idStr = "B" then [⟨"C"⟩]
    else if idStr = "C" then [⟨"A"⟩]
    else []

/-- C8 (confirmed).  The graph traversal queries relations for each
reachable node at most once (the visited keys are duplicate-free for every
graph and depth, cyclic ones included), interprets depth as a hop count
(depth 1 returns exactly the relations of the start node), and stops early
on an empty frontier; on the cycle A → B → C → A with depth 3 it visits
each of A, B, C exactly once, and a larger depth changes nothing. -/
theorem graph_traversal_semantics (adj : String → List RelationWithMemory)
    (start : String) (depth : Nat) :
    (visitedKeys (get_memory_graph adj start depth)).Nodup
  ∧ get_memory_graph adj start 1 = [(start, adj start)]
  ∧ (visitedKeys (get_memory_graph adjABC "A" 3) = ["A", "B", "C"]
    ∧ get_memory_graph adjABC "A" 3 = get_memory_graph adjABC "A" 10) :=
  ⟨graphLoop_nodup adj depth [] [start] List.nodup_nil,
   get_memory_graph_depth_one adj start,
   by decide, by decide⟩

/-- C9 (counterexample).  The claim says every registered on-error hook is
invoked and the original exception always propagates regardless of what the
hooks do.  A hook that itself raises refutes both parts: with two
registered hooks of which the first raises 99, only one hook is invoked and
the exception that propagates is 99, not the transport's original 7. -/
theorem onerror_hook_can_replace :
    (run_request ([] : List (Nat → Option Nat))
      [fun _ => some 99, fun _ => none] ([] : List (Nat → Option Nat))
      (fun _ => Except.error 7) 0).1 = Except.error 99
  ∧ ((run_request ([] : List (Nat → Option Nat))
      [fun _ => some 99, fun _ => none] ([] : List (Nat → Option Nat))
      (fun _ => Except.error 7) 0).2).length = 1 := by
  constructor <;> rfl

/-- C9 (amended).  Provided no on-error hook itself raises, every
registered on-error hook is invoked in registration order with the original
exception, the hooks' return values are discarded (they cannot suppress or
replace the exception by returning), and the original exception propagates
to the caller.  A hook that raises aborts the chain and its exception
propagates instead. -/
theorem onerror_hooks_observe_only {β ε δ : Type}
    (before : List (β → Option β)) (onError : List (ε → Option ε))
    (after : List (δ → Option δ)) (transport : β → Except ε δ) (body : β)
    (exc : ε)
    (htr : transport (before.foldl (fun b h => (h b).getD b) body) =
      Except.error exc)
    (hno : ∀ h ∈ onError, h exc = none) :
    run_request before onError after transport body =
      (Except.error exc, List.replicate onError.length exc) := by
  have hdisp : ∀ hooks : List (ε → Option ε), (∀ h ∈ hooks, h exc = none) →
      dispatchOnError hooks exc =
        (List.replicate hooks.length exc, exc) := by
    intro hooks
    induction hooks with
    | nil => intro _; rfl
    | cons hd tl ih =>
      intro hh
      rw [dispatchOnError, hh hd (by simp)]
      simp only [ih (fun g hg => hh g (by simp [hg])), List.length_cons,
        List.replicate_succ]
  simp only [run_request, htr, hdisp onError hno]

/-- C9 witness: one well-behaved hook observes the original exception 7,
which propagates unchanged. -/
theorem onerror_hooks_observe_only_witness :
    run_request ([] : List (Nat → Option Nat)) [fun _ => none]
      ([] : List (Nat → Option Nat)) (fun _ => Except.error 7) 0 =
      (Except.error 7, List.replicate 1 7) :=
  onerror_hooks_observe_only [] [fun _ => none] []
    (fun _ => Except.error 7) 0 7 rfl
    (by
      intro g hg
      rw [List.mem_singleton] at hg
      subst hg
      rfl)

end Memoclaw
